import Mathlib

/-!
Verification of the pdf-to-word-converter repository.

Shallow embedding of the utility functions in src/src/utils/helpers.py and
of the command bodies in src/src/cli/interface.py.  Filenames and paths are
modelled as lists of characters (wrapped from String where convenient), the
filesystem as a boolean predicate on paths, the unseen conversion engine
PDFToWordConverter.convert as an oracle giving each call an outcome, and a
Python exception as the error branch of Except.
-/

/-! ## Character and string helpers shared by the embeddings -/

/-- The ASCII whitespace characters removed by the Python method strip():
space, tab, newline, carriage return, vertical tab, form feed. -/
def py_isspace (c : Char) : Bool :=
  c == ' ' || c == '\t' || c == '\n' || c == '\r' || c == Char.ofNat 11 || c == Char.ofNat 12

/-- Embedding of the Python method strip() on a list of characters:
drop whitespace from the front, then from the back. -/
def pyStripL (l : List Char) : List Char :=
  ((l.dropWhile py_isspace).reverse.dropWhile py_isspace).reverse

/-! ## sanitize_filename (src/src/utils/helpers.py lines 275-298) -/

/-- The characters the source lists as invalid_chars, in source order:
the Python literal is the string of the nine characters
less-than, greater-than, colon, double quote, slash, backslash, pipe,
question mark, star. -/
def invalid_chars : List Char := ['<', '>', ':', '"', '/', '\\', '|', '?', '*']

/-- The value computed by the body of sanitize_filename before its return
statement: each invalid character replaced by an underscore (one
str.replace per character, in source order), then strip(), then
truncation to 200 characters when longer. -/
def sanitize_steps (filename : List Char) : List Char :=
  let replaced :=
    invalid_chars.foldl (fun acc c => acc.map (fun x => if x = c then '_' else x)) filename
  let stripped := pyStripL replaced
  if stripped.length > 200 then stripped.take 200 else stripped

/-- Embedding of sanitize_filename (src/src/utils/helpers.py lines 275-298).
The body computes the cleaned name into the local variable filename exactly
as sanitize_steps does, but the final statement of the source is
return filenamev: the name filenamev is bound nowhere, so in Python the
function raises NameError on every call instead of returning the cleaned
name. -/
def sanitize_filename (filename : List Char) : Except String (List Char) :=
  let _ := sanitize_steps filename
  Except.error "NameError: name filenamev is not defined"

/-! ## validate_file (src/src/utils/helpers.py lines 13-32) -/

/-- Embedding of the Python method lower() on a list of characters. -/
def pyLowerL (l : List Char) : List Char := l.map Char.toLower

/-- Embedding of the Python method endswith: the candidate ending is a
suffix of the string. -/
def pyEndswith (s ending : List Char) : Bool := List.isSuffixOf ending s

/-- Embedding of validate_file for a string argument, the type its
annotation declares.  The filesystem is abstracted as the predicate fs of
the paths that exist. -/
def validate_file (fs : List Char → Bool) (file_path extension : List Char) : Bool :=
  if !(fs file_path) then false
  else if !(pyEndswith (pyLowerL file_path) (pyLowerL extension)) then false
  else true

/-! ## validate_file with a dynamically typed argument, and the convert
command body (src/src/cli/interface.py lines 44-115) -/

/-- The runtime type of the first argument the callers pass to
validate_file: the string its annotation declares, or the pathlib.Path the
convert command actually passes (interface.py lines 46-49). -/
inductive PyPathArg where
  | str (s : List Char)
  | path (s : List Char)

/-- The characters of the path carried by either runtime type;
os.path.exists accepts both. -/
def pathStr : PyPathArg → List Char
  | .str s => s
  | .path s => s

/-- Embedding of validate_file as executed on a dynamically typed first
argument.  The existence check os.path.exists works on both runtime types,
but the method lower exists only on str: attribute lookup on a
pathlib.Path raises AttributeError, modelled as the error branch. -/
def validate_file_dyn (fs : List Char → Bool) (file_path : PyPathArg)
    (extension : List Char) : Except String Bool :=
  if !(fs (pathStr file_path)) then Except.ok false
  else
    match file_path with
    | .str s =>
      if !(pyEndswith (pyLowerL s) (pyLowerL extension)) then Except.ok false
      else Except.ok true
    | .path _ => Except.error "AttributeError: Path object has no attribute lower"

/-- Outcome of one call of the unseen conversion engine
PDFToWordConverter.convert: a boolean result, or a raised exception. -/
inductive ConvOutcome where
  | ok (success : Bool)
  | exn (msg : String)

/-- Embedding of the body of the convert command (interface.py lines
44-115): returns the process exit code paired with whether the success
branch at line 94 was reached.  The whole body sits in a try whose except
at line 110 turns any exception into exit code 1.  input_file is the path
string click validated, and the body wraps it in pathlib.Path before
calling validate_file; mkdirOk abstracts output_path.parent.mkdir at line
54 (false when it raises); conv abstracts the converter call at line 87. -/
def convert_cmd (fs : List Char → Bool) (input_file : List Char) (mkdirOk : Bool)
    (conv : ConvOutcome) : ℕ × Bool :=
  match validate_file_dyn fs (.path input_file) ".pdf".toList with
  | .error _ => (1, false)
  | .ok false => (1, false)
  | .ok true =>
    if !mkdirOk then (1, false)
    else
      match conv with
      | .exn _ => (1, false)
      | .ok false => (1, false)
      | .ok true => (0, true)

/-! ## The batch command body (src/src/cli/interface.py lines 129-207) -/

/-- One iteration of the batch loop (interface.py lines 171-194) on the
counter pair (successful, failed).  The conversion of each file runs
inside its own try (line 176) whose except (line 192) counts a raised
exception as a failure, so every outcome yields a next state and the fold
continues. -/
def batch_step {α : Type} (conv : α → ConvOutcome) (st : ℕ × ℕ) (f : α) : ℕ × ℕ :=
  match conv f with
  | .ok true => (st.1 + 1, st.2)
  | .ok false => (st.1, st.2 + 1)
  | .exn _ => (st.1, st.2 + 1)

/-- The batch loop over the discovered files, starting from
successful = 0, failed = 0 (interface.py lines 168-169). -/
def batch_loop {α : Type} (conv : α → ConvOutcome) (files : List α) : ℕ × ℕ :=
  files.foldl (batch_step conv) (0, 0)

/-- Whether an outcome of the converter is counted as a success by the
batch loop (the branch at line 185). -/
def isSuccessOutcome : ConvOutcome → Bool
  | .ok true => true
  | _ => false

/-- Whether an outcome of the converter is a returned failure (the branch
at line 188). -/
def isFailOutcome : ConvOutcome → Bool
  | .ok false => true
  | _ => false

/-- Whether an outcome of the converter is a raised exception (the except
at line 192). -/
def isExnOutcome : ConvOutcome → Bool
  | .exn _ => true
  | _ => false

/-- An observable event of the batch loop: conversion of a file begins, or
conversion of a file ends (by success, failure, or caught exception). -/
inductive BatchEvent (α : Type) where
  | start (f : α)
  | finish (f : α)
deriving DecidableEq

/-- Embedding of the batch loop with its event trace: the loop takes the
files in list order; each iteration enters the conversion of its file and
leaves it (normally or through the except at line 192) before the
recursion reaches the rest of the list, as in the sequential Python
source. -/
def batch_loop_tr {α : Type} (conv : α → ConvOutcome) :
    List α → (ℕ × ℕ) → (ℕ × ℕ) × List (BatchEvent α)
  | [], st => (st, [])
  | f :: rest, st =>
    let st2 := batch_step conv st f
    let r := batch_loop_tr conv rest st2
    (r.1, BatchEvent.start f :: BatchEvent.finish f :: r.2)

/-- Embedding of the body of the batch command (interface.py lines
129-207), returning the process exit code.  An empty glob result returns
early (exit 0); mkdirOk abstracts output_path.mkdir at line 153 (false
when it raises, which the outer except at line 202 turns into exit 1); the
loop itself never raises, and the body then falls through to the summary
and exits 0 whatever the two counters hold. -/
def batch_cmd {α : Type} (files : List α) (mkdirOk : Bool)
    (conv : α → ConvOutcome) : ℕ :=
  if files.isEmpty then 0
  else if !mkdirOk then 1
  else
    let _ := batch_loop conv files
    0

/-! ## get_file_size (src/src/utils/helpers.py lines 35-56)

The Python loop works on floats; the embedding uses exact rationals
(division by 1024 is exact on binary floats for every realizable size). -/

/-- Rounding of a rational to the nearest integer with ties to even, the
rule the Python format specifier .1f applies to the scaled value. -/
def roundHalfEven (q : ℚ) : ℤ :=
  let f := ⌊q⌋
  let r := q - f
  if r < 1 / 2 then f
  else if 1 / 2 < r then f + 1
  else if f % 2 = 0 then f else f + 1

/-- The format specifier .1f on a nonnegative value: the value rounded to
one decimal place, rendered as integer part, dot, tenths digit. -/
def fmtOneDec (q : ℚ) : List Char :=
  let t := roundHalfEven (q * 10)
  (toString (t / 10)).toList ++ '.' :: (toString (t % 10)).toList

/-- The unit list of the loop at line 49, in source order. -/
def size_units : List (List Char) :=
  ["B".toList, "KB".toList, "MB".toList, "GB".toList]

/-- Embedding of the loop of get_file_size: return the formatted value and
the current unit as soon as the value falls below 1024, else divide by
1024 and move to the next unit; after the last listed unit the value is
rendered with TB (line 54). -/
def size_loop : ℚ → List (List Char) → List Char
  | size, [] => fmtOneDec size ++ ' ' :: "TB".toList
  | size, u :: us =>
    if size < 1024 then fmtOneDec size ++ ' ' :: u
    else size_loop (size / 1024) us

/-- Embedding of get_file_size on the byte count of the file (the try
around os.path.getsize and its OSError fallback concern the filesystem
call, not the formatting the claim describes). -/
def get_file_size (size_bytes : ℕ) : List Char :=
  size_loop (size_bytes : ℚ) size_units

/-! ## generate_output_filename (src/src/utils/helpers.py lines 163-181)

The os.path functions are embedded with their POSIX semantics. -/

/-- Embedding of os.path.basename: the part after the last slash. -/
def basenameL (p : List Char) : List Char :=
  (p.reverse.takeWhile (fun c => c != '/')).reverse

/-- The second half of os.path.dirname: the head kept as is when it is
empty or all slashes, its trailing slashes stripped otherwise. -/
def dirname_core (head : List Char) : List Char :=
  if head = [] then head
  else if head.all (fun c => c == '/') then head
  else (head.reverse.dropWhile (fun c => c == '/')).reverse

/-- Embedding of os.path.dirname: the part up to and including the last
slash; when that head is neither empty nor all slashes, trailing slashes
are stripped from it. -/
def dirnameL (p : List Char) : List Char :=
  dirname_core ((p.reverse.dropWhile (fun c => c != '/')).reverse)

/-- Embedding of the root component of os.path.splitext: the name is split
at its last dot only when the part of the basename after its leading dots
still contains a dot (so names made of leading dots only are not split);
when it is split, the root is everything before the last dot. -/
def splitextRootL (p : List Char) : List Char :=
  let base := basenameL p
  let afterDots := base.dropWhile (fun c => c == '.')
  if afterDots.contains '.' then
    ((p.reverse.dropWhile (fun c => c != '.')).reverse).dropLast
  else p

/-- Embedding of os.path.join on two components: an absolute second
component wins; otherwise the components are glued, inserting a slash
unless the first is empty or already ends with one. -/
def joinL (a b : List Char) : List Char :=
  if b.head? = some '/' then b
  else if a = [] ∨ a.getLast? = some '/' then a ++ b
  else a ++ '/' :: b

/-- The default output name generate_output_filename builds at lines
178-181: the input directory joined with the input stem plus .docx. -/
def default_output_name (input_path : List Char) : List Char :=
  joinL (dirnameL input_path)
    (splitextRootL (basenameL input_path) ++ ".docx".toList)

/-- Embedding of generate_output_filename: the Python truthiness test
`if output_path` returns the explicit output when it is neither None nor
empty, and otherwise builds the default name. -/
def generate_output_filename (input_path : List Char)
    (output_path : Option (List Char)) : List Char :=
  if output_path.getD [] ≠ [] then output_path.getD []
  else default_output_name input_path

/-! ## get_pdf_info (src/src/utils/helpers.py lines 59-108) -/

/-- The dictionary get_pdf_info returns: its exact six keys. -/
structure PdfInfo where
  pages : ℕ
  size : List Char
  title : List Char
  author : List Char
  has_text : Bool
  has_images : Bool
deriving DecidableEq

/-- A fitz document as the embedding sees it: page count, optional
metadata entries, and the per-page results of get_text and get_images,
each possibly raising. -/
structure PdfDoc where
  pages : ℕ
  title : Option (List Char)
  author : Option (List Char)
  textOf : ℕ → Except String (List Char)
  imagesOf : ℕ → Except String (List ℕ)

/-- Result of fitz.open: a document, or a raised exception. -/
inductive FitzResult where
  | ok (d : PdfDoc)
  | raises (msg : String)

/-- Embedding of the loop at lines 81-86: scan the given page numbers until
one has text that is nonempty after strip; a raise propagates. -/
def scan_has_text (textOf : ℕ → Except String (List Char)) :
    List ℕ → Except String Bool
  | [] => Except.ok false
  | i :: rest =>
    match textOf i with
    | .error e => .error e
    | .ok t =>
      if !(pyStripL t).isEmpty then Except.ok true
      else scan_has_text textOf rest

/-- Embedding of the loop at lines 89-94: scan the given page numbers until
one has a nonempty image list; a raise propagates. -/
def scan_has_images (imagesOf : ℕ → Except String (List ℕ)) :
    List ℕ → Except String Bool
  | [] => Except.ok false
  | i :: rest =>
    match imagesOf i with
    | .error e => .error e
    | .ok imgs =>
      if !imgs.isEmpty then Except.ok true
      else scan_has_images imagesOf rest

/-- The dictionary returned by the except branch at lines 101-108. -/
def errorInfo (size_str : List Char) : PdfInfo :=
  { pages := 0, size := size_str, title := "Error al leer".toList,
    author := "Desconocido".toList, has_text := false, has_images := false }

/-- Embedding of get_pdf_info.  size_str abstracts get_file_size(pdf_path),
stored unchanged under size by both branches.  Any exception raised by
fitz.open or by the page scans reaches the except at line 99, which
returns the fixed error dictionary; the function itself always returns. -/
def get_pdf_info (size_str : List Char) (r : FitzResult) : PdfInfo :=
  match r with
  | .raises _ => errorInfo size_str
  | .ok d =>
    match scan_has_text d.textOf (List.range (min 3 d.pages)) with
    | .error _ => errorInfo size_str
    | .ok ht =>
      match scan_has_images d.imagesOf (List.range (min 3 d.pages)) with
      | .error _ => errorInfo size_str
      | .ok hi =>
        { pages := d.pages, size := size_str,
          title := d.title.getD "Sin título".toList,
          author := d.author.getD "Desconocido".toList,
          has_text := ht, has_images := hi }

/-! ## Theorems -/

/-- The batch loop from any starting counters: successful grows by the
number of files whose outcome is a success, failed by the number of all
other files, exceptions included. -/
theorem batch_foldl_spec {α : Type} (conv : α → ConvOutcome) (files : List α) :
    ∀ st : ℕ × ℕ,
      files.foldl (batch_step conv) st =
        (st.1 + (files.filter fun f => isSuccessOutcome (conv f)).length,
         st.2 + (files.filter fun f => !isSuccessOutcome (conv f)).length) := by
  induction files with
  | nil => intro st; simp
  | cons f rest ih =>
    intro st
    rw [List.foldl_cons, ih]
    rcases hc : conv f with b | m
    · cases b <;>
        simp [batch_step, hc, isSuccessOutcome, List.filter_cons] <;> omega
    · simp [batch_step, hc, isSuccessOutcome, List.filter_cons]
      omega

/-- Claim C1 (code bug): sanitize_filename is supposed to return the
replaced, stripped and truncated name, but the source returns the unbound
name filenamev, so on the input consisting of space, a, less-than, b, space
it raises NameError instead of returning a_b. -/
theorem sanitize_filename_raises_nameerror :
    sanitize_filename (" a<b ".toList) =
      Except.error "NameError: name filenamev is not defined" ∧
    sanitize_steps (" a<b ".toList) = "a_b".toList := by
  constructor
  · rfl
  · rfl

/-- Claim C2: for a string path, validate_file returns false when the path
does not exist, false when the lowercased path does not end with the
lowercased expected extension, and true otherwise. -/
theorem validate_file_correct (fs : List Char → Bool) (p ext : List Char) :
    (fs p = false → validate_file fs p ext = false) ∧
    (¬ pyLowerL ext <:+ pyLowerL p → validate_file fs p ext = false) ∧
    (fs p = true → pyLowerL ext <:+ pyLowerL p →
      validate_file fs p ext = true) := by
  refine ⟨fun h => by simp [validate_file, h], fun h => ?_, fun h h2 => ?_⟩
  · have hb : pyEndswith (pyLowerL p) (pyLowerL ext) = false := by
      rw [← Bool.not_eq_true]
      simpa [pyEndswith, List.isSuffixOf_iff_suffix] using h
    cases hfs : fs p <;> simp [validate_file, hfs, hb]
  · have hb : pyEndswith (pyLowerL p) (pyLowerL ext) = true := by
      simpa [pyEndswith, List.isSuffixOf_iff_suffix] using h2
    simp [validate_file, h, hb]

/-- Witness for claim C2 at a concrete filesystem and path. -/
theorem validate_file_correct_witness :
    validate_file (fun q => q == "doc.PDF".toList) "doc.PDF".toList ".pdf".toList = true :=
  (validate_file_correct (fun q => q == "doc.PDF".toList) "doc.PDF".toList ".pdf".toList).2.2
    (by decide) (by decide)

/-- Splitting the files the batch loop does not count as successes into
the returned failures and the caught exceptions. -/
theorem filter_not_success_split {α : Type} (conv : α → ConvOutcome) (files : List α) :
    (files.filter fun f => !isSuccessOutcome (conv f)).length =
      (files.filter fun f => isFailOutcome (conv f)).length +
      (files.filter fun f => isExnOutcome (conv f)).length := by
  induction files with
  | nil => simp
  | cons f rest ih =>
    rcases hc : conv f with b | m
    · cases b
      · have h1 : isSuccessOutcome (conv f) = false := by rw [hc]; rfl
        have h2 : isFailOutcome (conv f) = true := by rw [hc]; rfl
        have h3 : isExnOutcome (conv f) = false := by rw [hc]; rfl
        simp [List.filter_cons, h1, h2, h3, ih]
        omega
      · have h1 : isSuccessOutcome (conv f) = true := by rw [hc]; rfl
        have h2 : isFailOutcome (conv f) = false := by rw [hc]; rfl
        have h3 : isExnOutcome (conv f) = false := by rw [hc]; rfl
        simp [List.filter_cons, h1, h2, h3, ih]
    · have h1 : isSuccessOutcome (conv f) = false := by rw [hc]; rfl
      have h2 : isFailOutcome (conv f) = false := by rw [hc]; rfl
      have h3 : isExnOutcome (conv f) = true := by rw [hc]; rfl
      simp [List.filter_cons, h1, h2, h3, ih]
      omega

/-- Claim C3: validate_file applied to an existing file given as a
pathlib.Path raises AttributeError instead of returning a boolean, and the
convert command body, which passes Path(input_file) to it, never reaches
its success branch. -/
theorem validate_file_path_raises (fs : List Char → Bool) (p ext : List Char)
    (h : fs p = true) :
    validate_file_dyn fs (.path p) ext =
      Except.error "AttributeError: Path object has no attribute lower" ∧
    ∀ (mk : Bool) (conv : ConvOutcome), (convert_cmd fs p mk conv).2 = false := by
  constructor
  · simp [validate_file_dyn, pathStr, h]
  · intro mk conv
    have hv : validate_file_dyn fs (.path p) ".pdf".toList =
        Except.error "AttributeError: Path object has no attribute lower" := by
      simp [validate_file_dyn, pathStr, h]
    unfold convert_cmd
    rw [hv]

/-- Witness for claim C3 on a filesystem where every path exists. -/
theorem validate_file_path_raises_witness :
    validate_file_dyn (fun _ => true) (.path "a.pdf".toList) ".pdf".toList =
      Except.error "AttributeError: Path object has no attribute lower" ∧
    (convert_cmd (fun _ => true) "a.pdf".toList true (.ok true)).2 = false :=
  ⟨(validate_file_path_raises (fun _ => true) "a.pdf".toList ".pdf".toList rfl).1,
   (validate_file_path_raises (fun _ => true) "a.pdf".toList ".pdf".toList rfl).2
      true (.ok true)⟩

/-- Claim C6: the convert body always ends in a validation failure or in
an exception reaching the boundary handler (first conjunct) and exits with
code 1 (second conjunct); the batch body exits 1 exactly when an unhandled
error occurs, namely when mkdir raises after a nonempty glob, and 0
otherwise, per-file failures included. -/
theorem command_exit_codes (fs : List Char → Bool) (input : List Char) (mk : Bool)
    (conv : ConvOutcome) {α : Type} (files : List α) (mk2 : Bool)
    (convf : α → ConvOutcome) :
    (fs input = false ∨
      ∃ e, validate_file_dyn fs (.path input) ".pdf".toList = Except.error e) ∧
    (convert_cmd fs input mk conv).1 = 1 ∧
    batch_cmd files mk2 convf =
      (if files.isEmpty = false ∧ mk2 = false then 1 else 0) := by
  refine ⟨?_, ?_, ?_⟩
  · cases hfs : fs input
    · exact Or.inl rfl
    · exact Or.inr ⟨"AttributeError: Path object has no attribute lower",
        by simp [validate_file_dyn, pathStr, hfs]⟩
  · cases hfs : fs input
    · have hv : validate_file_dyn fs (.path input) ".pdf".toList = Except.ok false := by
        simp [validate_file_dyn, pathStr, hfs]
      unfold convert_cmd
      rw [hv]
    · have hv : validate_file_dyn fs (.path input) ".pdf".toList =
          Except.error "AttributeError: Path object has no attribute lower" := by
        simp [validate_file_dyn, pathStr, hfs]
      unfold convert_cmd
      rw [hv]
  · cases hemp : files.isEmpty <;> cases mk2 <;> simp [batch_cmd, hemp]

/-- Claim C7: in the batch loop an exception raised while converting one
file is caught and counted in failed, and the loop still processes every
remaining file: over the whole list, failed is exactly the number of files
whose conversion returned false plus the number whose conversion raised,
and successful the number whose conversion returned true. -/
theorem batch_exception_counted {α : Type} (conv : α → ConvOutcome) (files : List α) :
    (batch_loop conv files).2 =
      (files.filter fun f => isFailOutcome (conv f)).length +
      (files.filter fun f => isExnOutcome (conv f)).length ∧
    (batch_loop conv files).1 =
      (files.filter fun f => isSuccessOutcome (conv f)).length := by
  unfold batch_loop
  rw [batch_foldl_spec]
  exact ⟨by simpa using filter_not_success_split conv files, by simp⟩

/-- Claim C8: the batch loop is strictly sequential: its event trace is
exactly start then finish for the first listed file, then start then
finish for the second, and so on, so each conversion runs to completion
before the next begins, in list order. -/
theorem batch_sequential_trace {α : Type} (conv : α → ConvOutcome) (files : List α) :
    ∀ st : ℕ × ℕ,
      batch_loop_tr conv files st =
        (files.foldl (batch_step conv) st,
         files.flatMap fun f => [BatchEvent.start f, BatchEvent.finish f]) := by
  induction files with
  | nil => intro st; simp [batch_loop_tr]
  | cons f rest ih => intro st; simp [batch_loop_tr, ih, List.flatMap_cons]

/-- Claim C10: after the batch loop the counters partition the files,
successful plus failed equals the number of files found, and every single
iteration increments exactly one of the two counters by one. -/
theorem batch_counters_partition {α : Type} (conv : α → ConvOutcome) (files : List α) :
    (batch_loop conv files).1 + (batch_loop conv files).2 = files.length ∧
    ∀ (st : ℕ × ℕ) (f : α),
      batch_step conv st f = (st.1 + 1, st.2) ∨
      batch_step conv st f = (st.1, st.2 + 1) := by
  constructor
  · unfold batch_loop
    rw [batch_foldl_spec]
    simp only [Nat.zero_add]
    induction files with
    | nil => simp
    | cons f rest ih =>
      cases hs : isSuccessOutcome (conv f) <;>
        simp [List.filter_cons, hs] <;> omega
  · intro st f
    rcases hc : conv f with b | m
    · cases b
      · exact Or.inr (by simp [batch_step, hc])
      · exact Or.inl (by simp [batch_step, hc])
    · exact Or.inr (by simp [batch_step, hc])

/-- Claim C9: get_pdf_info lets no exception escape: when fitz.open raises
it returns the record with exactly the six fields, pages 0, the formatted
size, title Error al leer, author Desconocido and both flags false, and
the same record when a page scan raises after a successful open. -/
theorem get_pdf_info_error_dict (size_str : List Char) (msg : String) (d : PdfDoc) :
    get_pdf_info size_str (.raises msg) =
      { pages := 0, size := size_str, title := "Error al leer".toList,
        author := "Desconocido".toList, has_text := false, has_images := false } ∧
    (((∃ e, scan_has_text d.textOf (List.range (min 3 d.pages)) = Except.error e) ∨
      (∃ e, scan_has_images d.imagesOf (List.range (min 3 d.pages)) = Except.error e)) →
      get_pdf_info size_str (.ok d) =
        { pages := 0, size := size_str, title := "Error al leer".toList,
          author := "Desconocido".toList, has_text := false, has_images := false }) := by
  constructor
  · rfl
  · rintro (⟨e, he⟩ | ⟨e, he⟩)
    · simp [get_pdf_info, he, errorInfo]
    · rcases ht : scan_has_text d.textOf (List.range (min 3 d.pages)) with e2 | b
      · simp [get_pdf_info, ht, errorInfo]
      · simp [get_pdf_info, ht, he, errorInfo]

/-- Witness for claim C9 on a one-page document whose text read raises. -/
theorem get_pdf_info_error_dict_witness :
    get_pdf_info "1.0 KB".toList
        (.ok ⟨1, none, none, fun _ => Except.error "boom", fun _ => Except.ok []⟩) =
      { pages := 0, size := "1.0 KB".toList, title := "Error al leer".toList,
        author := "Desconocido".toList, has_text := false, has_images := false } :=
  (get_pdf_info_error_dict "1.0 KB".toList "x"
      ⟨1, none, none, fun _ => Except.error "boom", fun _ => Except.ok []⟩).2
    (Or.inl ⟨"boom", rfl⟩)

/-- Unfolding of one loop step of get_file_size when the value is below
the threshold. -/
theorem size_loop_cons_lt (size : ℚ) (u : List Char) (us : List (List Char))
    (h : size < 1024) :
    size_loop size (u :: us) = fmtOneDec size ++ ' ' :: u := by
  simp [size_loop, h]

/-- Unfolding of one loop step of get_file_size when the value is not
below the threshold. -/
theorem size_loop_cons_ge (size : ℚ) (u : List Char) (us : List (List Char))
    (h : ¬ size < 1024) :
    size_loop size (u :: us) = size_loop (size / 1024) us := by
  simp [size_loop, h]

/-- After the listed units run out, the loop renders the value with TB. -/
theorem size_loop_nil (size : ℚ) :
    size_loop size [] = fmtOneDec size ++ ' ' :: "TB".toList := rfl

/-- The loop threshold on the rational value, read back on the byte
count. -/
theorem cast_div_pow_lt (n k : ℕ) :
    ((n : ℚ) / 1024 ^ k < 1024) ↔ n < 1024 ^ (k + 1) := by
  rw [div_lt_iff₀ (by positivity : (0 : ℚ) < 1024 ^ k)]
  rw [show (1024 : ℚ) * 1024 ^ k = ((1024 ^ (k + 1) : ℕ) : ℚ) by push_cast; ring]
  exact_mod_cast Iff.rfl

/-- Claim C4: get_file_size renders n bytes with the first unit among
B, KB, MB, GB under which the repeatedly divided value falls below 1024,
TB for everything larger, as the value to one decimal place, a space and
the unit. -/
theorem get_file_size_units (n : ℕ) :
    get_file_size n =
      if n < 1024 then fmtOneDec (n : ℚ) ++ ' ' :: "B".toList
      else if n < 1024 ^ 2 then fmtOneDec ((n : ℚ) / 1024) ++ ' ' :: "KB".toList
      else if n < 1024 ^ 3 then fmtOneDec ((n : ℚ) / 1024 ^ 2) ++ ' ' :: "MB".toList
      else if n < 1024 ^ 4 then fmtOneDec ((n : ℚ) / 1024 ^ 3) ++ ' ' :: "GB".toList
      else fmtOneDec ((n : ℚ) / 1024 ^ 4) ++ ' ' :: "TB".toList := by
  have e2 : (n : ℚ) / 1024 / 1024 = (n : ℚ) / 1024 ^ 2 := by
    rw [div_div]; norm_num
  have e3 : (n : ℚ) / 1024 ^ 2 / 1024 = (n : ℚ) / 1024 ^ 3 := by
    rw [div_div]; norm_num [pow_succ]
  have e4 : (n : ℚ) / 1024 ^ 3 / 1024 = (n : ℚ) / 1024 ^ 4 := by
    rw [div_div]; norm_num [pow_succ]
  have c1 : ((n : ℚ) < 1024) ↔ n < 1024 := by exact_mod_cast Iff.rfl
  have c2 := cast_div_pow_lt n 1
  have c3 := cast_div_pow_lt n 2
  have c4 := cast_div_pow_lt n 3
  rw [pow_one] at c2
  simp only [get_file_size, size_units]
  by_cases h1 : n < 1024
  · rw [size_loop_cons_lt _ _ _ (c1.mpr h1), if_pos h1]
  · rw [size_loop_cons_ge _ _ _ (fun hq => h1 (c1.mp hq)), if_neg h1]
    by_cases h2 : n < 1024 ^ 2
    · rw [size_loop_cons_lt _ _ _ (c2.mpr h2), if_pos h2]
    · rw [size_loop_cons_ge _ _ _ (fun hq => h2 (c2.mp hq)), if_neg h2, e2]
      by_cases h3 : n < 1024 ^ 3
      · rw [size_loop_cons_lt _ _ _ (c3.mpr h3), if_pos h3]
      · rw [size_loop_cons_ge _ _ _ (fun hq => h3 (c3.mp hq)), if_neg h3, e3]
        by_cases h4 : n < 1024 ^ 4
        · rw [size_loop_cons_lt _ _ _ (c4.mpr h4), if_pos h4]
        · rw [size_loop_cons_ge _ _ _ (fun hq => h4 (c4.mp hq)), if_neg h4, e4,
            size_loop_nil]

/-- A name without slashes is its own basename. -/
theorem basenameL_of_no_slash (l : List Char) (h : ∀ c ∈ l, (c != '/') = true) :
    basenameL l = l := by
  unfold basenameL
  rw [List.takeWhile_eq_self_iff.mpr, List.reverse_reverse]
  intro x hx
  exact h x (List.mem_reverse.mp hx)

/-- No character of a basename is a slash. -/
theorem no_slash_in_basenameL (p : List Char) :
    ∀ c ∈ basenameL p, (c != '/') = true := by
  intro c hc
  unfold basenameL at hc
  have h2 : c ∈ p.reverse.takeWhile (fun c => c != '/') := List.mem_reverse.mp hc
  exact @List.mem_takeWhile_imp Char (fun c => c != '/') p.reverse c h2

/-- Every character of the splitext root comes from the name. -/
theorem splitextRootL_subset (b : List Char) : ∀ c ∈ splitextRootL b, c ∈ b := by
  intro c hc
  unfold splitextRootL at hc
  dsimp only at hc
  split at hc
  · have h1 : c ∈ (b.reverse.dropWhile (fun c => c != '.')).reverse :=
      List.Sublist.mem hc (List.dropLast_sublist _)
    have h2 : c ∈ b.reverse.dropWhile (fun c => c != '.') := List.mem_reverse.mp h1
    have h3 : c ∈ b.reverse := List.Sublist.mem h2 (List.dropWhile_sublist _)
    exact List.mem_reverse.mp h3
  · exact hc

/-- The three possible shapes of the second half of dirname: empty, all
slashes, or ending in a character other than slash. -/
theorem dirname_core_cases (head : List Char) :
    dirname_core head = [] ∨
    (dirname_core head ≠ [] ∧ ∀ c ∈ dirname_core head, (c == '/') = true) ∨
    (∃ c0, (dirname_core head).getLast? = some c0 ∧ (c0 == '/') = false) := by
  unfold dirname_core
  by_cases h1 : head = []
  · rw [if_pos h1]
    exact Or.inl h1
  · rw [if_neg h1]
    by_cases h2 : head.all (fun c => c == '/') = true
    · rw [if_pos h2]
      exact Or.inr (Or.inl ⟨h1, fun c hc => List.all_eq_true.mp h2 c hc⟩)
    · rw [if_neg h2]
      right; right
      have hne : head.reverse.dropWhile (fun c => c == '/') ≠ [] := by
        intro hnil
        apply h2
        rw [List.all_eq_true]
        intro x hx
        exact List.dropWhile_eq_nil_iff.mp hnil x (List.mem_reverse.mpr hx)
      obtain ⟨c0, t, hct⟩ : ∃ c0 t,
          head.reverse.dropWhile (fun c => c == '/') = c0 :: t := by
        cases hq : head.reverse.dropWhile (fun c => c == '/') with
        | nil => exact absurd hq hne
        | cons a b => exact ⟨a, b, rfl⟩
      refine ⟨c0, ?_, ?_⟩
      · rw [List.getLast?_reverse, hct]
        rfl
      · have hp := List.head?_dropWhile_not (fun c => c == '/') head.reverse
        rw [hct] at hp
        simpa using hp

/-- The shapes a dirname result can take. -/
theorem dirnameL_cases (p : List Char) :
    dirnameL p = [] ∨
    (dirnameL p ≠ [] ∧ ∀ c ∈ dirnameL p, (c == '/') = true) ∨
    (∃ c0, (dirnameL p).getLast? = some c0 ∧ (c0 == '/') = false) :=
  dirname_core_cases _

/-- Joining a dirname-shaped directory with a nonempty slash-free filename
and splitting back: the directory and the filename are recovered
unchanged. -/
theorem join_parts (d f : List Char)
    (hf : ∀ c ∈ f, (c != '/') = true) (hfne : f ≠ [])
    (hd : d = [] ∨ (d ≠ [] ∧ ∀ c ∈ d, (c == '/') = true) ∨
      (∃ c0, d.getLast? = some c0 ∧ (c0 == '/') = false)) :
    dirnameL (joinL d f) = d ∧ basenameL (joinL d f) = f := by
  have hfhead : ¬ f.head? = some '/' := by
    cases f with
    | nil => simp
    | cons c t =>
      intro hcontra
      simp only [List.head?_cons, Option.some.injEq] at hcontra
      subst hcontra
      have := hf '/' (List.mem_cons_self _ _)
      simp at this
  have hfrev : ∀ c ∈ f.reverse, (c != '/') = true := fun c hc =>
    hf c (List.mem_reverse.mp hc)
  rcases hd with hd0 | ⟨hdne, hdall⟩ | ⟨c0, hlast, hc0⟩
  · subst hd0
    have hj : joinL [] f = f := by
      unfold joinL
      rw [if_neg hfhead, if_pos (Or.inl rfl)]
      exact List.nil_append f
    rw [hj]
    constructor
    · have hnil : f.reverse.dropWhile (fun c => c != '/') = [] :=
        List.dropWhile_eq_nil_iff.mpr hfrev
      unfold dirnameL
      rw [hnil]
      rfl
    · exact basenameL_of_no_slash f hf
  · obtain ⟨c, t, hct⟩ : ∃ c t, d.reverse = c :: t := by
      cases hq : d.reverse with
      | nil => exact absurd (List.reverse_eq_nil_iff.mp hq) hdne
      | cons a b => exact ⟨a, b, rfl⟩
    have hcd : c ∈ d := List.mem_reverse.mp (hct ▸ List.mem_cons_self c t)
    have hcslash : c = '/' := by simpa using hdall c hcd
    have hlast' : d.getLast? = some '/' := by
      rw [List.getLast?_eq_head?_reverse, hct, hcslash]
      rfl
    have hj : joinL d f = d ++ f := by
      unfold joinL
      rw [if_neg hfhead, if_pos (Or.inr hlast')]
    rw [hj]
    constructor
    · unfold dirnameL
      rw [List.reverse_append, List.dropWhile_append_of_pos hfrev, hct,
        List.dropWhile_cons_of_neg (by simp [hcslash]), ← hct, List.reverse_reverse]
      unfold dirname_core
      rw [if_neg hdne, if_pos (List.all_eq_true.mpr hdall)]
    · unfold basenameL
      rw [List.reverse_append, List.takeWhile_append_of_pos hfrev, hct,
        List.takeWhile_cons_of_neg (by simp [hcslash]), List.append_nil,
        List.reverse_reverse]
  · have hdne : d ≠ [] := by
      intro h0
      rw [h0] at hlast
      simp at hlast
    obtain ⟨t', hct'⟩ : ∃ t', d.reverse = c0 :: t' := by
      have hh : d.reverse.head? = some c0 := by
        rw [List.head?_reverse]
        exact hlast
      cases hq : d.reverse with
      | nil =>
        rw [hq] at hh
        simp at hh
      | cons a b =>
        rw [hq] at hh
        simp only [List.head?_cons, Option.some.injEq] at hh
        exact ⟨b, by rw [← hh]⟩
    have hj : joinL d f = d ++ '/' :: f := by
      unfold joinL
      rw [if_neg hfhead, if_neg ?_]
      rintro (h0 | hsl)
      · exact hdne h0
      · rw [hlast] at hsl
        simp only [Option.some.injEq] at hsl
        rw [hsl] at hc0
        simp at hc0
    have hrev : (d ++ '/' :: f).reverse = f.reverse ++ '/' :: d.reverse := by
      rw [List.reverse_append, List.reverse_cons, List.append_assoc,
        List.singleton_append]
    rw [hj]
    constructor
    · unfold dirnameL
      rw [hrev, List.dropWhile_append_of_pos hfrev,
        List.dropWhile_cons_of_neg (by simp), List.reverse_cons,
        List.reverse_reverse]
      unfold dirname_core
      have hnall : ¬ (d ++ ['/']).all (fun c => c == '/') = true := by
        intro hall
        have hc0mem : c0 ∈ d ++ ['/'] :=
          List.mem_append.mpr (Or.inl (List.mem_of_getLast?_eq_some hlast))
        have := List.all_eq_true.mp hall c0 hc0mem
        rw [this] at hc0
        simp at hc0
      rw [if_neg (by simp), if_neg hnall]
      have hstep : (d ++ ['/']).reverse = '/' :: d.reverse := by
        rw [List.reverse_append]
        rfl
      rw [hstep, List.dropWhile_cons_of_pos (by simp), hct',
        List.dropWhile_cons_of_neg (by simp [hc0]), ← hct', List.reverse_reverse]
    · unfold basenameL
      rw [hrev, List.takeWhile_append_of_pos hfrev,
        List.takeWhile_cons_of_neg (by simp), List.append_nil,
        List.reverse_reverse]

/-- Claim C5: generate_output_filename returns a nonempty explicit output
path unchanged; with no explicit output it returns a path whose directory
is the directory of the input and whose filename is the stem of the input
followed by .docx. -/
theorem generate_output_filename_correct (input o : List Char) :
    (o ≠ [] → generate_output_filename input (some o) = o) ∧
    dirnameL (generate_output_filename input none) = dirnameL input ∧
    basenameL (generate_output_filename input none) =
      splitextRootL (basenameL input) ++ ".docx".toList := by
  have hgen : generate_output_filename input none = default_output_name input := by
    simp [generate_output_filename]
  have hf : ∀ c ∈ splitextRootL (basenameL input) ++ ".docx".toList,
      (c != '/') = true := by
    intro c hc
    rcases List.mem_append.mp hc with h1 | h1
    · exact no_slash_in_basenameL input c (splitextRootL_subset _ c h1)
    · simp only [show (".docx".toList) = ['.', 'd', 'o', 'c', 'x'] from rfl,
        List.mem_cons, List.not_mem_nil, or_false] at h1
      rcases h1 with rfl | rfl | rfl | rfl | rfl <;> rfl
  have hfne : splitextRootL (basenameL input) ++ ".docx".toList ≠ [] := by
    intro h
    exact absurd (List.append_eq_nil.mp h).2 (by decide)
  have hmain := join_parts (dirnameL input)
    (splitextRootL (basenameL input) ++ ".docx".toList) hf hfne (dirnameL_cases input)
  refine ⟨fun h => by simp [generate_output_filename, h], ?_, ?_⟩
  · rw [hgen]
    exact hmain.1
  · rw [hgen]
    exact hmain.2

/-- Witness for claim C5 at a concrete input and output pair. -/
theorem generate_output_filename_correct_witness :
    generate_output_filename "dir/a.pdf".toList (some "out.docx".toList) =
      "out.docx".toList :=
  (generate_output_filename_correct "dir/a.pdf".toList "out.docx".toList).1 (by decide)
